import Mathlib

/-!
Verification of the ONNX model-parser pipeline: a shallow embedding of the
decode wrapper (parseONNXModelComplete), the flow-graph builder
(ModelViewer's two-pass node/edge construction with its name-to-id map),
and the layout label construction (getConvDetails and friends), together
with theorems settling the specification claims about them.

JavaScript conventions modelled explicitly:
- optional / possibly-undefined fields become Option,
- the JS truthiness-based fallback a || b (where the empty string is falsy)
  becomes jsStr followed by getD,
- JS objects used as insertion-ordered string-keyed maps become association
  lists with first-match lookup.
-/

set_option maxHeartbeats 1000000
set_option maxRecDepth 16000

/-- JS truthiness for optional strings: a present-but-empty string is falsy,
so it behaves like an absent value in a fallback chain a || b. -/
def jsStr : Option String → Option String
  | some s => if s = "" then none else some s
  | none => none

/-- First-match lookup in an insertion-ordered association list, the model of
a JS object used as a string-keyed map. -/
def alookup {β : Type} : List (String × β) → String → Option β
  | [], _ => none
  | (k, v) :: rest, n => if k = n then some v else alookup rest n

/-- One attribute of an ONNX node as decoded by protobufjs with the options
longs: String (int64 lists arrive as decimal strings). Mirrors the shape
consumed by getConvDetails in RawCanvas.jsx. -/
structure AttrProto where
  name : String
  ints : Option (List String) := none
deriving DecidableEq

/-- One decoded graph node (onnx NodeProto after ModelProto.toObject), with
exactly the fields the pipeline reads: opType (and the tolerant variants
op_type and type probed by ModelViewer), name, input, output, attribute. -/
structure RawNode where
  opType : Option String := none
  op_type : Option String := none
  type : Option String := none
  name : Option String := none
  input : List String := []
  output : List String := []
  «attribute» : List AttrProto := []
deriving DecidableEq

/-- A decoded value-info entry ({name, type.value}) from graph.input or
graph.output. -/
structure NamedTensor where
  name : String
  typeValue : Option String := none
deriving DecidableEq

/-- The decoded graph field of a ModelProto: node, input, output,
initializer (initializers are opaque blobs, kept as opaque strings per the
bytes: String decode option). -/
structure DecodedGraph where
  input : List NamedTensor := []
  output : List NamedTensor := []
  node : List RawNode := []
  initializer : List String := []
deriving DecidableEq

/-- The decoded ModelProto as produced by ModelProto.toObject. The graph
field of a message is nullable (protobufjs yields null for an absent
singular message field), hence Option. -/
structure DecodedModel where
  producerName : Option String := none
  producerVersion : Option String := none
  graph : Option DecodedGraph := none
deriving DecidableEq

/-! ### parseONNXModelComplete (RawCanvas.jsx / parseONNXModel.js) -/

/-- The complexity threshold from parseONNXModelComplete:
nodes.length > 1000 ? High : nodes.length > 100 ? Medium : Low. -/
def modelComplexity (n : Nat) : String :=
  if n > 1000 then "High" else if n > 100 then "Medium" else "Low"

/-- JS assignment freq[op] = (freq[op] || 0) + 1 on an insertion-ordered
object: update the existing entry in place, or append a fresh entry 1. -/
def bump : List (String × Nat) → String → List (String × Nat)
  | [], op => [(op, 1)]
  | (k, v) :: rest, op =>
    if k = op then (k, v + 1) :: rest else (k, v) :: bump rest op

/-- One step of the operator-frequency loop: if (op) freq[op] += 1, where an
absent or empty opType is falsy and skipped. -/
def freqStep (freq : List (String × Nat)) (nd : RawNode) : List (String × Nat) :=
  match nd.opType with
  | none => freq
  | some op => if op = "" then freq else bump freq op

/-- The operator-frequency histogram computed by parseONNXModelComplete. -/
def operatorFrequency (nodes : List RawNode) : List (String × Nat) :=
  nodes.foldl freqStep []

/-- An entry {name, type} of the inputs/outputs arrays in the parse result;
type is i.type?.value || the string unknown. -/
structure TensorOut where
  name : String
  type : String
deriving DecidableEq

/-- The analysis block of the parse result. -/
structure Analysis where
  totalInputs : Nat
  totalOutputs : Nat
  totalNodes : Nat
  totalInitializers : Nat
  modelComplexity : String
  operatorFrequency : List (String × Nat)
deriving DecidableEq

/-- The success payload of parseONNXModelComplete (file block, model block,
graph block, analysis block). -/
structure ParsedData where
  fileName : String
  fileSize : Nat
  producerName : String
  producerVersion : String
  inputs : List TensorOut
  outputs : List TensorOut
  nodes : List RawNode
  initializer : List String
  analysis : Analysis
deriving DecidableEq

/-- Result of parseONNXModelComplete: either the failure shape
{error, parsingMethod: fallback} or the full success payload
(parsingMethod: runtime-load). -/
inductive ParseResult where
  | failure (error : String) : ParseResult
  | success (data : ParsedData) : ParseResult
deriving DecidableEq

/-- The parsingMethod discriminant carried by each result shape. -/
def ParseResult.parsingMethod : ParseResult → String
  | ParseResult.failure _ => "fallback"
  | ParseResult.success _ => "runtime-load"

/-- The error field of a result, when present (only the failure shape has
one: the success shape carries no error and the failure shape carries no
model/graph fields). -/
def ParseResult.errorMsg : ParseResult → Option String
  | ParseResult.failure e => some e
  | ParseResult.success _ => none

/-- Message of the TypeError raised (and caught by the surrounding try) when
the decoded model has a null graph and line 540 evaluates
model.graph.input. -/
def nullGraphError : String := "Cannot read properties of null (reading 'input')"

/-- map over graph.input / graph.output building {name, type} entries, with
i.type?.value || 'unknown'. -/
def tensorOutOf (t : NamedTensor) : TensorOut :=
  { name := t.name, type := (jsStr t.typeValue).getD "unknown" }

/-- Shallow embedding of parseONNXModelComplete. The decode step
(protobuf.load + ModelProto.decode + toObject) is an external collaborator,
so it enters as an Except value: error e models any throw during load or
decode (caught by the catch block, which returns the failure shape carrying
err.message); ok m models a successful decode. A decoded model whose graph
is null still reaches the catch block, because building the success object
evaluates model.graph.input. -/
def parseONNXModelComplete (fileName : String) (fileSize : Nat)
    (dec : Except String DecodedModel) : ParseResult :=
  match dec with
  | Except.error e => ParseResult.failure e
  | Except.ok m =>
    match m.graph with
    | none => ParseResult.failure nullGraphError
    | some g =>
      ParseResult.success
        { fileName := fileName
          fileSize := fileSize
          producerName := (jsStr m.producerName).getD "Unknown"
          producerVersion := (jsStr m.producerVersion).getD "Unknown"
          inputs := g.input.map tensorOutOf
          outputs := g.output.map tensorOutOf
          nodes := g.node
          initializer := g.initializer
          analysis :=
            { totalInputs := g.input.length
              totalOutputs := g.output.length
              totalNodes := g.node.length
              totalInitializers := g.initializer.length
              modelComplexity := modelComplexity g.node.length
              operatorFrequency := operatorFrequency g.node } }

/-! ### Flow-graph construction (ModelViewer.jsx) -/

/-- A React Flow node pushed by ModelViewer: id, type (input / default),
position and label. -/
structure FlowNode where
  id : String
  type : String
  x : Nat
  y : Nat
  label : String
deriving DecidableEq

/-- A React Flow edge pushed by ModelViewer (animated is always true). -/
structure FlowEdge where
  id : String
  source : String
  target : String
deriving DecidableEq

/-- The ambient state of the ModelViewer build: accumulated nodes and edges,
the tensor-name-to-id map, the processedInputs set (insertion ordered, its
size drives the y position), and the uid counter. -/
structure BuildState where
  nodes : List FlowNode
  edges : List FlowEdge
  nameToId : List (String × String)
  processedInputs : List String
  uid : Nat
deriving DecidableEq

/-- The id string id-<k> minted for counter value k. -/
def mkId (k : Nat) : String := "id-" ++ toString k

/-- getId from ModelViewer: reuse the mapped id, or mint id-<uid> for a
fresh name and bump the counter. -/
def getId (s : BuildState) (name : String) : String × BuildState :=
  match alookup s.nameToId name with
  | some v => (v, s)
  | none =>
    (mkId s.uid,
     { s with nameToId := s.nameToId ++ [(name, mkId s.uid)], uid := s.uid + 1 })

/-- Label of an input node: input.length > 20 ? substring(0,20) + dots :
input. -/
def truncateLabel (s : String) : String :=
  if s.length > 20 then String.take s 20 ++ "..." else s

/-- Pass 1 body: for a consumed tensor name not yet in processedInputs,
assign an id, push an input-kind node (y grows with the processedInputs
size), and record the name as processed. -/
def processInput (s : BuildState) (inp : String) : BuildState :=
  if inp ∈ s.processedInputs then s
  else
    let p := getId s inp
    { p.2 with
      nodes := p.2.nodes ++
        [{ id := p.1, type := "input", x := 50,
           y := 50 + p.2.processedInputs.length * 100,
           label := truncateLabel inp }],
      processedInputs := p.2.processedInputs ++ [inp] }

/-- Pass 1 over one node's input list, in list order. -/
def pass1Inputs (s : BuildState) : List String → BuildState
  | [] => s
  | inp :: rest => pass1Inputs (processInput s inp) rest

/-- Pass 1 over all nodes, in node order. -/
def pass1 (s : BuildState) : List RawNode → BuildState
  | [] => s
  | nd :: rest => pass1 (pass1Inputs s nd.input) rest

/-- Canonical name of the node at position i:
node.output?.[0] || node.name || node-<i> under JS truthiness. -/
def canonicalName (nd : RawNode) (i : Nat) : String :=
  match jsStr nd.output.head? with
  | some s => s
  | none =>
    match jsStr nd.name with
    | some s => s
    | none => "node-" ++ toString i

/-- Displayed operator label of the node at position i:
node.opType || node.op_type || node.type || Node <i> under JS truthiness. -/
def opLabel (nd : RawNode) (i : Nat) : String :=
  match jsStr nd.opType with
  | some s => s
  | none =>
    match jsStr nd.op_type with
    | some s => s
    | none =>
      match jsStr nd.type with
      | some s => s
      | none => "Node " ++ toString i

/-- Edge emission over one node's input list: resolve the consumed name
through getId and push an edge from it to the operator node's id. -/
def emitEdges (s : BuildState) (nodeId : String) : List String → BuildState
  | [] => s
  | inp :: rest =>
    let q := getId s inp
    emitEdges
      { q.2 with
        edges := q.2.edges ++
          [{ id := "e-" ++ q.1 ++ "-" ++ nodeId, source := q.1, target := nodeId }] }
      nodeId rest

/-- Pass 2 body for the node at position i: resolve the canonical name to an
id, push the operator (default-kind) node at its grid position, then emit
one edge per consumed input. -/
def processNode (s : BuildState) (i : Nat) (nd : RawNode) : BuildState :=
  let p := getId s (canonicalName nd i)
  let s1 :=
    { p.2 with
      nodes := p.2.nodes ++
        [{ id := p.1, type := "default",
           x := 300 + (i % 4) * 200, y := 100 + (i / 4) * 150,
           label := opLabel nd i }] }
  emitEdges s1 p.1 nd.input

/-- Pass 2 over the remaining nodes, with i the position of the first. -/
def pass2From (s : BuildState) (i : Nat) : List RawNode → BuildState
  | [] => s
  | nd :: rest => pass2From (processNode s i nd) (i + 1) rest

/-- The initial build state: empty collections, uid counter at 1. -/
def initState : BuildState :=
  { nodes := [], edges := [], nameToId := [], processedInputs := [], uid := 1 }

/-- The final build state for a raw node list: pass 1 then pass 2 from
position 0. -/
def buildState (nodes : List RawNode) : BuildState :=
  pass2From (pass1 initState nodes) 0 nodes

/-- The node and edge lists ModelViewer derives from modelData.graph.nodes. -/
def buildGraph (nodes : List RawNode) : List FlowNode × List FlowEdge :=
  ((buildState nodes).nodes, (buildState nodes).edges)

/-! ### Layout node construction (RawCanvas.jsx layoutGraph) -/

def NODE_WIDTH : Nat := 200
def NODE_HEIGHT : Nat := 120
def INPUT_NODE_WIDTH : Nat := 140
def INPUT_NODE_HEIGHT : Nat := 80
def OUTPUT_NODE_WIDTH : Nat := 140
def OUTPUT_NODE_HEIGHT : Nat := 80

/-- Is the needle a prefix of the haystack (on char lists)? -/
def isPrefixChars : List Char → List Char → Bool
  | [], _ => true
  | _ :: _, [] => false
  | c :: cs, d :: ds => (c == d) && isPrefixChars cs ds

/-- Does the needle occur inside the haystack (on char lists)? -/
def isInfixChars (needle : List Char) : List Char → Bool
  | [] => isPrefixChars needle []
  | d :: ds => isPrefixChars needle (d :: ds) || isInfixChars needle ds

/-- JS String.prototype.includes: substring containment. -/
def strIncludes (s sub : String) : Bool := isInfixChars sub.data s.data

/-- JS Array.prototype.join with the times-sign separator, as applied to the
decoded ints of an attribute. -/
def joinX : List String → String
  | [] => ""
  | [x] => x
  | x :: y :: rest => x ++ "×" ++ joinX (y :: rest)

/-- getAttrValue inside getConvDetails: find the attribute by name and join
its ints with the times sign; the en-dash placeholder when the attribute is
missing, has no ints, or the join is the empty string (JS falsiness of the
empty join). -/
def getAttrValue (attrs : List AttrProto) (nm : String) : String :=
  match attrs.find? (fun a => a.name == nm) with
  | none => "–"
  | some a =>
    match a.ints with
    | none => "–"
    | some l => if joinX l = "" then "–" else joinX l

/-- getConvDetails: the six descriptive lines of a Conv node. The weight and
bias lines show the first input whose name contains weight resp. bias, with
the single-letter fallbacks W and B; the four attribute lines use
getAttrValue with its en-dash placeholder. -/
def getConvDetails (nd : RawNode) : List String :=
  ["Weight: " ++ ((nd.input.find? (fun i => strIncludes i "weight")).getD "W"),
   "Bias: " ++ ((nd.input.find? (fun i => strIncludes i "bias")).getD "B"),
   "Dilations: " ++ getAttrValue nd.«attribute» "dilations",
   "Kernel: " ++ getAttrValue nd.«attribute» "kernel_shape",
   "Padding: " ++ getAttrValue nd.«attribute» "pads",
   "Strides: " ++ getAttrValue nd.«attribute» "strides"]

/-- Label lines of an operator node in layoutGraph: for a Conv node the
opType followed by the six descriptive lines, otherwise the single line
node.opType (which is the JS undefined when the field is absent, hence
Option). -/
def layoutNodeLabels (nd : RawNode) : List (Option String) :=
  if nd.opType = some "Conv" then nd.opType :: (getConvDetails nd).map some
  else [nd.opType]

/-- A child handed to the layout engine: id (node.output[0] for operators,
possibly undefined), fixed kind-specific width/height, label lines, kind. -/
structure LayoutChild where
  id : Option String
  width : Nat
  height : Nat
  labels : List (Option String)
  nodeType : Option String
deriving DecidableEq

/-- The layout child built from one operator RawNode. -/
def layoutOperatorChild (nd : RawNode) : LayoutChild :=
  { id := nd.output.head?, width := NODE_WIDTH, height := NODE_HEIGHT,
    labels := layoutNodeLabels nd, nodeType := nd.opType }

/-- The layout child built from one graph input: a single untruncated label
line holding the tensor name. -/
def layoutInputChild (name : String) : LayoutChild :=
  { id := some name, width := INPUT_NODE_WIDTH, height := INPUT_NODE_HEIGHT,
    labels := [some name], nodeType := some "Input" }

/-- The layout child built from one graph output: a single untruncated label
line holding the tensor name. -/
def layoutOutputChild (name : String) : LayoutChild :=
  { id := some name, width := OUTPUT_NODE_WIDTH, height := OUTPUT_NODE_HEIGHT,
    labels := [some name], nodeType := some "Output" }

/-- allChildren: inputs, then operator nodes, then outputs. -/
def layoutChildren (d : ParsedData) : List LayoutChild :=
  d.inputs.map (fun t => layoutInputChild t.name) ++
  d.nodes.map layoutOperatorChild ++
  d.outputs.map (fun t => layoutOutputChild t.name)

/-- The analysis block of a result, when the result is the success shape. -/
def ParseResult.analysisResult : ParseResult → Option Analysis
  | ParseResult.failure _ => none
  | ParseResult.success d => some d.analysis

/-! ### Concrete sample models used in scenario checks -/

/-- Scenario 1 of the spec: a single Conv consuming x, w, b and producing
y. -/
def convNodes : List RawNode :=
  [{ opType := some "Conv", input := ["x", "w", "b"], output := ["y"] }]

/-- A two-operator chain: the tensor t is consumed by the second node and is
the primary output of the first. -/
def chainNodes : List RawNode :=
  [{ opType := some "Conv", input := ["x"], output := ["t"] },
   { opType := some "ReLU", input := ["t"], output := ["y"] }]

/-- The tensor t is consumed by the first node but produced only as the
second (non-primary) output of the second node. -/
def secondOutputNodes : List RawNode :=
  [{ opType := some "A", input := ["t"], output := ["u"] },
   { opType := some "B", input := [], output := ["v", "t"] }]

/-- A node whose first output entry is present but empty, with a name
field to fall back to. -/
def emptyFirstOutputNode : RawNode := { name := some "alt", output := [""] }

/-- A Conv node with no inputs and no attributes. -/
def bareConvNode : RawNode := { opType := some "Conv", output := ["y"] }

/-! ### Derived notions used by the theorems below -/

/-- Forward simulation between build states: the name-to-id map only gains
entries (existing lookups keep their value), and the node and edge lists
only grow. Every step of the build is monotone in this sense. -/
def Mono (s t : BuildState) : Prop :=
  (∀ k v, alookup s.nameToId k = some v → alookup t.nameToId k = some v) ∧
  (∀ n, n ∈ s.nodes → n ∈ t.nodes) ∧
  (∀ e, e ∈ s.edges → e ∈ t.edges)

/-- A tensor name consumed by some operator of the raw node list. -/
def consumed (nodes : List RawNode) (x : String) : Prop :=
  ∃ nd ∈ nodes, x ∈ nd.input

/-- Invariant of pass 1: every processed name is mapped to the id of an
input-kind node already in the node list. -/
def InputCover (s : BuildState) : Prop :=
  ∀ x ∈ s.processedInputs,
    ∃ n, n ∈ s.nodes ∧ n.type = "input" ∧ alookup s.nameToId x = some n.id

/-- Every edge's endpoints name ids of nodes already in the node list. -/
def EdgeOK (s : BuildState) : Prop :=
  ∀ e ∈ s.edges,
    (∃ n, n ∈ s.nodes ∧ n.id = e.source) ∧ (∃ n, n ∈ s.nodes ∧ n.id = e.target)

/-- Every mapped id was minted from a counter value below the current uid,
and the map never sends two distinct names to one id. -/
def IdWF (s : BuildState) : Prop :=
  (∀ p ∈ s.nameToId, ∃ k, k < s.uid ∧ p.2 = mkId k) ∧
  (∀ p ∈ s.nameToId, ∀ q ∈ s.nameToId, p.2 = q.2 → p.1 = q.1)

/-- The id finally assigned to a tensor name by a full build run (empty
string for names that never received one). -/
def finalId (nodes : List RawNode) (x : String) : String :=
  (alookup (buildState nodes).nameToId x).getD ""

/-- The edge list as the specification describes it (section 4.2, edge
pass): one edge per (node, input) pair, emitted in node order then
input-list order, from the consumed tensor's assigned id to the node's id. -/
def edgeOrderSpec (nodes : List RawNode) : List FlowEdge :=
  nodes.enum.flatMap (fun p =>
    p.2.input.map (fun inp =>
      { id := "e-" ++ finalId nodes inp ++ "-" ++ finalId nodes (canonicalName p.2 p.1),
        source := finalId nodes inp,
        target := finalId nodes (canonicalName p.2 p.1) }))

/-- Number of nodes whose opType equals the given string. -/
def countOp : List RawNode → String → Nat
  | [], _ => 0
  | nd :: rest, op => (if nd.opType = some op then 1 else 0) + countOp rest op

/-- A node with a known opType: present and non-empty (a JS-truthy value,
matching the if (op) guard of the frequency loop). -/
def knownOp (nd : RawNode) : Bool :=
  match nd.opType with
  | none => false
  | some s => s != ""

/-- Number of nodes with a known opType. -/
def countKnown : List RawNode → Nat
  | [] => 0
  | nd :: rest => (if knownOp nd then 1 else 0) + countKnown rest

/-- Sum of the counts recorded in a frequency table. -/
def sumVals : List (String × Nat) → Nat
  | [] => 0
  | p :: rest => p.2 + sumVals rest

/-! ### Injectivity of the minted id strings

The ids id-<uid> are pairwise distinct across counter values because the
decimal rendering of a natural number (Nat.repr, the meaning of toString on
Nat) is injective. Proved here via an evaluation function that recovers the
number from its digit list. -/

/-- Numeric value of a decimal digit character. -/
def digitVal (c : Char) : Nat := c.toNat - 48

/-- Recover a number from a most-significant-first decimal digit list. -/
def evalDigits (l : List Char) : Nat :=
  l.foldl (fun acc c => acc * 10 + digitVal c) 0

theorem digitVal_digitChar : ∀ d : Nat, d < 10 → digitVal (Nat.digitChar d) = d := by
  decide

theorem toDigitsCore_append (fuel : Nat) :
    ∀ (n : Nat) (ds : List Char),
      Nat.toDigitsCore 10 fuel n ds = Nat.toDigitsCore 10 fuel n [] ++ ds := by
  induction fuel with
  | zero => intro n ds; simp [Nat.toDigitsCore]
  | succ f ih =>
    intro n ds
    simp only [Nat.toDigitsCore]
    by_cases h : n / 10 = 0
    · simp [h]
    · simp only [if_neg h]
      rw [ih (n / 10) (Nat.digitChar (n % 10) :: ds),
          ih (n / 10) [Nat.digitChar (n % 10)]]
      simp

theorem toDigitsCore_fuel :
    ∀ (n f1 f2 : Nat), n < f1 → n < f2 →
      Nat.toDigitsCore 10 f1 n [] = Nat.toDigitsCore 10 f2 n [] := by
  intro n
  induction n using Nat.strong_induction_on with
  | _ n ih =>
    intro f1 f2 h1 h2
    obtain ⟨fa, rfl⟩ : ∃ fa, f1 = fa + 1 := ⟨f1 - 1, by omega⟩
    obtain ⟨fb, rfl⟩ : ∃ fb, f2 = fb + 1 := ⟨f2 - 1, by omega⟩
    simp only [Nat.toDigitsCore]
    by_cases h : n / 10 = 0
    · simp [h]
    · simp only [if_neg h]
      have hn : 0 < n := by
        rcases Nat.eq_zero_or_pos n with h0 | h0
        · exact absurd (by simp [h0]) h
        · exact h0
      have hdiv : n / 10 < n := Nat.div_lt_self hn (by omega)
      rw [toDigitsCore_append fa, toDigitsCore_append fb,
          ih (n / 10) hdiv fa fb (by omega) (by omega)]

theorem toDigits_lt10 {n : Nat} (h : n < 10) :
    Nat.toDigits 10 n = [Nat.digitChar n] := by
  simp only [Nat.toDigits, Nat.toDigitsCore]
  rw [Nat.div_eq_of_lt h, Nat.mod_eq_of_lt h]
  simp

theorem toDigits_ge10 {n : Nat} (h : 10 ≤ n) :
    Nat.toDigits 10 n = Nat.toDigits 10 (n / 10) ++ [Nat.digitChar (n % 10)] := by
  have hdiv10 : n / 10 ≠ 0 := by omega
  have hlt : n / 10 < n := Nat.div_lt_self (by omega) (by omega)
  calc Nat.toDigits 10 n
      = Nat.toDigitsCore 10 n (n / 10) [Nat.digitChar (n % 10)] := by
        simp only [Nat.toDigits, Nat.toDigitsCore]
        rw [if_neg hdiv10]
    _ = Nat.toDigitsCore 10 n (n / 10) [] ++ [Nat.digitChar (n % 10)] :=
        toDigitsCore_append n (n / 10) [Nat.digitChar (n % 10)]
    _ = Nat.toDigitsCore 10 (n / 10 + 1) (n / 10) [] ++ [Nat.digitChar (n % 10)] := by
        rw [toDigitsCore_fuel (n / 10) n (n / 10 + 1) hlt (Nat.lt_succ_self _)]
    _ = Nat.toDigits 10 (n / 10) ++ [Nat.digitChar (n % 10)] := rfl

theorem evalDigits_toDigits (n : Nat) : evalDigits (Nat.toDigits 10 n) = n := by
  induction n using Nat.strong_induction_on with
  | _ n ih =>
    by_cases h : n < 10
    · rw [toDigits_lt10 h]
      simp [evalDigits, digitVal_digitChar n h]
    · push_neg at h
      have hdiv : n / 10 < n := Nat.div_lt_self (by omega) (by omega)
      rw [toDigits_ge10 h]
      simp only [evalDigits, List.foldl_append, List.foldl_cons, List.foldl_nil]
      have hm : digitVal (Nat.digitChar (n % 10)) = n % 10 :=
        digitVal_digitChar (n % 10) (Nat.mod_lt n (by omega))
      calc evalDigits (Nat.toDigits 10 (n / 10)) * 10 + digitVal (Nat.digitChar (n % 10))
          = n / 10 * 10 + n % 10 := by rw [ih (n / 10) hdiv, hm]
        _ = n := by omega

theorem natRepr_injective {m n : Nat} (h : Nat.repr m = Nat.repr n) : m = n := by
  have hdata : (Nat.toDigits 10 m) = (Nat.toDigits 10 n) :=
    congrArg String.data h
  have := congrArg evalDigits hdata
  rwa [evalDigits_toDigits, evalDigits_toDigits] at this

theorem mkId_injective {a b : Nat} (h : mkId a = mkId b) : a = b := by
  have hdata : ("id-" ++ toString a).data = ("id-" ++ toString b).data :=
    congrArg String.data h
  rw [String.data_append, String.data_append] at hdata
  exact natRepr_injective (String.ext (List.append_cancel_left hdata))

/-! ### Association-list and getId lemmas -/

theorem alookup_append_some {β : Type} {l l2 : List (String × β)} {k : String} {v : β}
    (h : alookup l k = some v) : alookup (l ++ l2) k = some v := by
  induction l with
  | nil => simp [alookup] at h
  | cons p rest ih =>
    obtain ⟨pk, pv⟩ := p
    simp only [alookup, List.cons_append] at h ⊢
    by_cases hk : pk = k
    · simpa [hk] using h
    · rw [if_neg hk] at h ⊢
      exact ih h

theorem alookup_append_none {β : Type} {l l2 : List (String × β)} {k : String}
    (h : alookup l k = none) : alookup (l ++ l2) k = alookup l2 k := by
  induction l with
  | nil => simp
  | cons p rest ih =>
    obtain ⟨pk, pv⟩ := p
    simp only [alookup, List.cons_append] at h ⊢
    by_cases hk : pk = k
    · simp [hk] at h
    · rw [if_neg hk] at h ⊢
      exact ih h

theorem alookup_mem {β : Type} {l : List (String × β)} {k : String} {v : β}
    (h : alookup l k = some v) : (k, v) ∈ l := by
  induction l with
  | nil => simp [alookup] at h
  | cons p rest ih =>
    obtain ⟨pk, pv⟩ := p
    simp only [alookup] at h
    by_cases hk : pk = k
    · rw [if_pos hk] at h
      subst hk
      obtain rfl : pv = v := by simpa using h
      exact List.mem_cons_self _ _
    · rw [if_neg hk] at h
      exact List.mem_cons_of_mem _ (ih h)

theorem getId_nodes (s : BuildState) (n : String) : (getId s n).2.nodes = s.nodes := by
  cases h : alookup s.nameToId n <;> simp [getId, h]

theorem getId_edges (s : BuildState) (n : String) : (getId s n).2.edges = s.edges := by
  cases h : alookup s.nameToId n <;> simp [getId, h]

theorem getId_processed (s : BuildState) (n : String) :
    (getId s n).2.processedInputs = s.processedInputs := by
  cases h : alookup s.nameToId n <;> simp [getId, h]

theorem getId_uid (s : BuildState) (n : String) : s.uid ≤ (getId s n).2.uid := by
  cases h : alookup s.nameToId n <;> simp [getId, h]

theorem getId_of_some {s : BuildState} {n : String} {v : String}
    (h : alookup s.nameToId n = some v) : getId s n = (v, s) := by
  simp [getId, h]

theorem getId_preserves {s : BuildState} {k v : String} (n : String)
    (h : alookup s.nameToId k = some v) :
    alookup (getId s n).2.nameToId k = some v := by
  cases h2 : alookup s.nameToId n <;> simp [getId, h2]
  · exact alookup_append_some h
  · exact h

theorem getId_sets (s : BuildState) (n : String) :
    alookup (getId s n).2.nameToId n = some (getId s n).1 := by
  cases h : alookup s.nameToId n <;> simp [getId, h]
  rw [alookup_append_none h]
  simp [alookup]



theorem Mono.refl (s : BuildState) : Mono s s :=
  ⟨fun _k _v h => h, fun _n h => h, fun _e h => h⟩

theorem Mono.trans {s t u : BuildState} (h1 : Mono s t) (h2 : Mono t u) : Mono s u :=
  ⟨fun k v h => h2.1 k v (h1.1 k v h),
   fun n h => h2.2.1 n (h1.2.1 n h),
   fun e h => h2.2.2 e (h1.2.2 e h)⟩

theorem getId_mono (s : BuildState) (n : String) : Mono s (getId s n).2 :=
  ⟨fun k v h => getId_preserves n h,
   fun nd h => (getId_nodes s n).symm ▸ h,
   fun e h => (getId_edges s n).symm ▸ h⟩

theorem processInput_mono (s : BuildState) (inp : String) :
    Mono s (processInput s inp) := by
  unfold processInput
  by_cases h : inp ∈ s.processedInputs
  · rw [if_pos h]
    exact Mono.refl s
  · rw [if_neg h]
    refine ⟨fun k v hk => getId_preserves inp hk, fun nd hn => ?_, fun e he => ?_⟩
    · exact List.mem_append_left _ ((getId_nodes s inp).symm ▸ hn)
    · exact (getId_edges s inp).symm ▸ he

theorem pass1Inputs_mono (l : List String) :
    ∀ s : BuildState, Mono s (pass1Inputs s l) := by
  induction l with
  | nil => intro s; exact Mono.refl s
  | cons inp rest ih =>
    intro s
    exact Mono.trans (processInput_mono s inp) (ih (processInput s inp))

theorem pass1_mono (l : List RawNode) : ∀ s : BuildState, Mono s (pass1 s l) := by
  induction l with
  | nil => intro s; exact Mono.refl s
  | cons nd rest ih =>
    intro s
    exact Mono.trans (pass1Inputs_mono nd.input s) (ih (pass1Inputs s nd.input))

theorem emitEdges_mono (l : List String) :
    ∀ (s : BuildState) (nodeId : String), Mono s (emitEdges s nodeId l) := by
  induction l with
  | nil => intro s _; exact Mono.refl s
  | cons inp rest ih =>
    intro s nodeId
    refine Mono.trans (t := { (getId s inp).2 with
      edges := (getId s inp).2.edges ++
        [{ id := "e-" ++ (getId s inp).1 ++ "-" ++ nodeId,
           source := (getId s inp).1, target := nodeId }] }) ?_ (ih _ nodeId)
    refine ⟨fun k v hk => getId_preserves inp hk, fun nd hn => ?_, fun e he => ?_⟩
    · exact (getId_nodes s inp).symm ▸ hn
    · exact List.mem_append_left _ ((getId_edges s inp).symm ▸ he)

theorem processNode_mono (s : BuildState) (i : Nat) (nd : RawNode) :
    Mono s (processNode s i nd) := by
  unfold processNode
  refine Mono.trans (t := { (getId s (canonicalName nd i)).2 with
    nodes := (getId s (canonicalName nd i)).2.nodes ++
      [{ id := (getId s (canonicalName nd i)).1, type := "default",
         x := 300 + (i % 4) * 200, y := 100 + (i / 4) * 150,
         label := opLabel nd i }] }) ?_ (emitEdges_mono nd.input _ _)
  refine ⟨fun k v hk => getId_preserves _ hk, fun n hn => ?_, fun e he => ?_⟩
  · exact List.mem_append_left _ ((getId_nodes s _).symm ▸ hn)
  · exact (getId_edges s _).symm ▸ he

theorem pass2From_mono (l : List RawNode) :
    ∀ (s : BuildState) (i : Nat), Mono s (pass2From s i l) := by
  induction l with
  | nil => intro s _; exact Mono.refl s
  | cons nd rest ih =>
    intro s i
    exact Mono.trans (processNode_mono s i nd) (ih (processNode s i nd) (i + 1))

/-! ### Pass-1 coverage: every consumed tensor name gets an input node -/





theorem processInput_processed_mem {s : BuildState} {x : String} (inp : String)
    (h : x ∈ s.processedInputs) : x ∈ (processInput s inp).processedInputs := by
  unfold processInput
  by_cases hc : inp ∈ s.processedInputs
  · rwa [if_pos hc]
  · rw [if_neg hc]
    simp only [getId_processed]
    exact List.mem_append_left _ h

theorem pass1Inputs_processed_mem (l : List String) :
    ∀ {s : BuildState} {x : String}, x ∈ s.processedInputs →
      x ∈ (pass1Inputs s l).processedInputs := by
  induction l with
  | nil => intro s x h; exact h
  | cons inp rest ih => intro s x h; exact ih (processInput_processed_mem inp h)

theorem pass1_processed_mem (l : List RawNode) :
    ∀ {s : BuildState} {x : String}, x ∈ s.processedInputs →
      x ∈ (pass1 s l).processedInputs := by
  induction l with
  | nil => intro s x h; exact h
  | cons nd rest ih => intro s x h; exact ih (pass1Inputs_processed_mem nd.input h)

theorem processInput_cover {s : BuildState} (inp : String) (h : InputCover s) :
    InputCover (processInput s inp) ∧ inp ∈ (processInput s inp).processedInputs := by
  unfold processInput
  by_cases hc : inp ∈ s.processedInputs
  · rw [if_pos hc]
    exact ⟨h, hc⟩
  · rw [if_neg hc]
    constructor
    · intro x hx
      simp only [getId_processed] at hx
      rcases List.mem_append.mp hx with hold | hnew
      · obtain ⟨n, hn, hty, hl⟩ := h x hold
        exact ⟨n, List.mem_append_left _ ((getId_nodes s inp).symm ▸ hn), hty,
               getId_preserves inp hl⟩
      · have hxe : x = inp := by simpa using hnew
        subst hxe
        refine ⟨_, List.mem_append_right _ (List.mem_singleton_self _), rfl, ?_⟩
        exact getId_sets s x
    · simp only [getId_processed]
      exact List.mem_append_right _ (List.mem_singleton_self _)

theorem pass1Inputs_cover (l : List String) :
    ∀ {s : BuildState}, InputCover s →
      InputCover (pass1Inputs s l) ∧
        ∀ x ∈ l, x ∈ (pass1Inputs s l).processedInputs := by
  induction l with
  | nil =>
    intro s h
    exact ⟨h, by intro x hx; simp at hx⟩
  | cons inp rest ih =>
    intro s h
    obtain ⟨h1, hmem⟩ := processInput_cover inp h
    obtain ⟨h2, hrest⟩ := ih h1
    refine ⟨h2, ?_⟩
    intro x hx
    rcases List.mem_cons.mp hx with rfl | hx
    · exact pass1Inputs_processed_mem rest hmem
    · exact hrest x hx

theorem pass1_cover (l : List RawNode) :
    ∀ {s : BuildState}, InputCover s →
      InputCover (pass1 s l) ∧
        ∀ nd ∈ l, ∀ x ∈ nd.input, x ∈ (pass1 s l).processedInputs := by
  induction l with
  | nil =>
    intro s h
    exact ⟨h, by intro nd hnd; simp at hnd⟩
  | cons nd rest ih =>
    intro s h
    obtain ⟨h1, hmem⟩ := pass1Inputs_cover nd.input h
    obtain ⟨h2, hrest⟩ := ih h1
    refine ⟨h2, ?_⟩
    intro nd2 hnd2 x hx
    rcases List.mem_cons.mp hnd2 with rfl | hnd2
    · exact pass1_processed_mem rest (hmem x hx)
    · exact hrest nd2 hnd2 x hx

theorem initState_cover : InputCover initState := by
  intro x hx
  simp [initState] at hx

/-- After pass 1 from the initial state, every consumed tensor name is
mapped to the id of an input-kind node already present. -/
theorem pass1_complete (nodes : List RawNode) {x : String} (h : consumed nodes x) :
    ∃ n, n ∈ (pass1 initState nodes).nodes ∧ n.type = "input" ∧
      alookup (pass1 initState nodes).nameToId x = some n.id := by
  obtain ⟨nd, hnd, hx⟩ := h
  obtain ⟨hcov, hall⟩ := pass1_cover nodes initState_cover
  exact hcov x (hall nd hnd x hx)

theorem pass1Inputs_edges (l : List String) :
    ∀ s : BuildState, (pass1Inputs s l).edges = s.edges := by
  induction l with
  | nil => intro s; rfl
  | cons inp rest ih =>
    intro s
    rw [pass1Inputs, ih]
    unfold processInput
    by_cases hc : inp ∈ s.processedInputs
    · rw [if_pos hc]
    · rw [if_neg hc]
      simp only [getId_edges]

theorem pass1_edges (l : List RawNode) : ∀ s : BuildState, (pass1 s l).edges = s.edges := by
  induction l with
  | nil => intro s; rfl
  | cons nd rest ih =>
    intro s
    rw [pass1, ih, pass1Inputs_edges]

/-! ### Pass-2: no dangling edge endpoints, and one operator node per
position -/



theorem emitEdges_ok (l : List String) :
    ∀ (s : BuildState) (nodeId : String),
      EdgeOK s →
      (∃ n, n ∈ s.nodes ∧ n.id = nodeId) →
      (∀ inp ∈ l, ∃ n, n ∈ s.nodes ∧ alookup s.nameToId inp = some n.id) →
      EdgeOK (emitEdges s nodeId l) := by
  induction l with
  | nil => intro s nodeId hok _ _; exact hok
  | cons inp rest ih =>
    intro s nodeId hok hnid hin
    obtain ⟨n, hn, hl⟩ := hin inp (List.mem_cons_self _ _)
    rw [emitEdges]
    rw [getId_of_some hl]
    apply ih
    · intro e he
      simp only [List.mem_append] at he
      rcases he with he | he
      · obtain ⟨h1, h2⟩ := hok e he
        exact ⟨h1, h2⟩
      · rw [List.mem_singleton] at he
        subst he
        exact ⟨⟨n, hn, rfl⟩, hnid⟩
    · exact hnid
    · intro inp2 hinp2
      exact hin inp2 (List.mem_cons_of_mem _ hinp2)

theorem processNode_ok (s : BuildState) (i : Nat) (nd : RawNode)
    (hok : EdgeOK s)
    (hin : ∀ inp ∈ nd.input, ∃ n, n ∈ s.nodes ∧ alookup s.nameToId inp = some n.id) :
    EdgeOK (processNode s i nd) := by
  unfold processNode
  apply emitEdges_ok
  · intro e he
    simp only [getId_edges] at he
    obtain ⟨⟨n1, hn1, h1⟩, ⟨n2, hn2, h2⟩⟩ := hok e he
    exact ⟨⟨n1, List.mem_append_left _ ((getId_nodes s _).symm ▸ hn1), h1⟩,
           ⟨n2, List.mem_append_left _ ((getId_nodes s _).symm ▸ hn2), h2⟩⟩
  · exact ⟨_, List.mem_append_right _ (List.mem_singleton_self _), rfl⟩
  · intro inp hinp
    obtain ⟨n, hn, hl⟩ := hin inp hinp
    exact ⟨n, List.mem_append_left _ ((getId_nodes s _).symm ▸ hn),
           getId_preserves _ hl⟩

theorem pass2From_ok (l : List RawNode) :
    ∀ (s : BuildState) (i : Nat),
      EdgeOK s →
      (∀ nd ∈ l, ∀ inp ∈ nd.input, ∃ n, n ∈ s.nodes ∧ alookup s.nameToId inp = some n.id) →
      EdgeOK (pass2From s i l) := by
  induction l with
  | nil => intro s i hok _; exact hok
  | cons nd rest ih =>
    intro s i hok hin
    apply ih
    · exact processNode_ok s i nd hok (hin nd (List.mem_cons_self _ _))
    · intro nd2 hnd2 inp hinp
      obtain ⟨n, hn, hl⟩ := hin nd2 (List.mem_cons_of_mem _ hnd2) inp hinp
      have hm := processNode_mono s i nd
      exact ⟨n, hm.2.1 n hn, hm.1 inp n.id hl⟩

/-- Pass 2 pushes, for each position k, a default-kind node whose id is the
final id of the node's canonical name. -/
theorem pass2From_opnode (l : List RawNode) :
    ∀ (s : BuildState) (i k : Nat) (h : k < l.length),
      ∃ n, n ∈ (pass2From s i l).nodes ∧ n.type = "default" ∧
        alookup (pass2From s i l).nameToId (canonicalName (l.get ⟨k, h⟩) (i + k)) =
          some n.id := by
  induction l with
  | nil => intro s i k h; exact absurd h (by simp)
  | cons nd rest ih =>
    intro s i k h
    cases k with
    | zero =>
      rw [pass2From]
      have hmono := pass2From_mono rest (processNode s i nd) (i + 1)
      have hcn : alookup (processNode s i nd).nameToId (canonicalName nd i) =
          some (getId s (canonicalName nd i)).1 := by
        unfold processNode
        have hstep : alookup (getId s (canonicalName nd i)).2.nameToId
            (canonicalName nd i) = some (getId s (canonicalName nd i)).1 :=
          getId_sets s (canonicalName nd i)
        exact (emitEdges_mono nd.input _ _).1 _ _ hstep
      have hnode : ({ id := (getId s (canonicalName nd i)).1, type := "default",
                      x := 300 + (i % 4) * 200, y := 100 + (i / 4) * 150,
                      label := opLabel nd i } : FlowNode) ∈ (processNode s i nd).nodes := by
        unfold processNode
        refine (emitEdges_mono nd.input _ _).2.1 _ ?_
        exact List.mem_append_right _ (List.mem_singleton_self _)
      refine ⟨_, hmono.2.1 _ hnode, rfl, ?_⟩
      simpa using hmono.1 _ _ hcn
    | succ k2 =>
      rw [pass2From]
      have h2 : k2 < rest.length := by simpa using h
      have := ih (processNode s i nd) (i + 1) k2 h2
      simpa [Nat.add_assoc, Nat.add_comm 1 k2] using this

/-! ### Which nodes each pass contributes -/

theorem processInput_nodes_mem {s : BuildState} {inp : String} {n : FlowNode}
    (h : n ∈ (processInput s inp).nodes) :
    n ∈ s.nodes ∨ (n.type = "input" ∧ n.label = truncateLabel inp) := by
  unfold processInput at h
  by_cases hc : inp ∈ s.processedInputs
  · rw [if_pos hc] at h
    exact Or.inl h
  · rw [if_neg hc] at h
    simp only at h
    rcases List.mem_append.mp h with h | h
    · exact Or.inl ((getId_nodes s inp) ▸ h)
    · have he : n = { id := (getId s inp).1, type := "input", x := 50,
                      y := 50 + (getId s inp).2.processedInputs.length * 100,
                      label := truncateLabel inp } := by simpa using h
      exact Or.inr ⟨by rw [he], by rw [he]⟩

theorem pass1Inputs_nodes_mem (l : List String) :
    ∀ {s : BuildState} {n : FlowNode}, n ∈ (pass1Inputs s l).nodes →
      n ∈ s.nodes ∨ ∃ x ∈ l, n.type = "input" ∧ n.label = truncateLabel x := by
  induction l with
  | nil => intro s n h; exact Or.inl h
  | cons inp rest ih =>
    intro s n h
    rcases ih h with h2 | ⟨x, hx, hp⟩
    · rcases processInput_nodes_mem h2 with h3 | h3
      · exact Or.inl h3
      · exact Or.inr ⟨inp, List.mem_cons_self _ _, h3⟩
    · exact Or.inr ⟨x, List.mem_cons_of_mem _ hx, hp⟩

theorem pass1_nodes_mem (l : List RawNode) :
    ∀ {s : BuildState} {n : FlowNode}, n ∈ (pass1 s l).nodes →
      n ∈ s.nodes ∨ ∃ nd ∈ l, ∃ x ∈ nd.input, n.type = "input" ∧ n.label = truncateLabel x := by
  induction l with
  | nil => intro s n h; exact Or.inl h
  | cons nd rest ih =>
    intro s n h
    rcases ih h with h2 | ⟨nd2, hnd2, hp⟩
    · rcases pass1Inputs_nodes_mem nd.input h2 with h3 | ⟨x, hx, hp⟩
      · exact Or.inl h3
      · exact Or.inr ⟨nd, List.mem_cons_self _ _, x, hx, hp⟩
    · exact Or.inr ⟨nd2, List.mem_cons_of_mem _ hnd2, hp⟩

theorem emitEdges_nodes (l : List String) :
    ∀ (s : BuildState) (nodeId : String), (emitEdges s nodeId l).nodes = s.nodes := by
  induction l with
  | nil => intro s _; rfl
  | cons inp rest ih =>
    intro s nodeId
    rw [emitEdges, ih]
    simp only [getId_nodes]

theorem processNode_nodes_mem {s : BuildState} {i : Nat} {nd : RawNode} {n : FlowNode}
    (h : n ∈ (processNode s i nd).nodes) : n ∈ s.nodes ∨ n.type = "default" := by
  unfold processNode at h
  rw [emitEdges_nodes] at h
  simp only at h
  rcases List.mem_append.mp h with h | h
  · exact Or.inl ((getId_nodes s _) ▸ h)
  · have he : n = { id := (getId s (canonicalName nd i)).1, type := "default",
                    x := 300 + (i % 4) * 200, y := 100 + (i / 4) * 150,
                    label := opLabel nd i } := by simpa using h
    exact Or.inr (by rw [he])

theorem pass2From_nodes_mem (l : List RawNode) :
    ∀ {s : BuildState} {i : Nat} {n : FlowNode}, n ∈ (pass2From s i l).nodes →
      n ∈ s.nodes ∨ n.type = "default" := by
  induction l with
  | nil => intro s i n h; exact Or.inl h
  | cons nd rest ih =>
    intro s i n h
    rcases ih h with h2 | h2
    · exact processNode_nodes_mem h2
    · exact Or.inr h2

/-! ### Well-formedness of the id map: all ids minted below the counter,
distinct names never share an id -/



theorem initState_wf : IdWF initState := by
  constructor
  · intro p hp
    simp [initState] at hp
  · intro p hp
    simp [initState] at hp

theorem getId_val_of_none {s : BuildState} {n : String}
    (h : alookup s.nameToId n = none) : (getId s n).1 = mkId s.uid := by
  simp [getId, h]

theorem getId_map_of_none {s : BuildState} {n : String}
    (h : alookup s.nameToId n = none) :
    (getId s n).2.nameToId = s.nameToId ++ [(n, mkId s.uid)] := by
  simp [getId, h]

theorem getId_uid_of_none {s : BuildState} {n : String}
    (h : alookup s.nameToId n = none) : (getId s n).2.uid = s.uid + 1 := by
  simp [getId, h]

theorem getId_wf {s : BuildState} (n : String) (h : IdWF s) : IdWF (getId s n).2 := by
  cases h2 : alookup s.nameToId n with
  | some v => simpa [getId, h2] using h
  | none =>
    constructor
    · intro p hp
      rw [getId_map_of_none h2] at hp
      rw [getId_uid_of_none h2]
      rcases List.mem_append.mp hp with hp | hp
      · obtain ⟨k, hk, hv⟩ := h.1 p hp
        exact ⟨k, by omega, hv⟩
      · have he : p = (n, mkId s.uid) := by simpa using hp
        exact ⟨s.uid, by omega, by rw [he]⟩
    · intro p hp q hq hpq
      rw [getId_map_of_none h2] at hp hq
      rcases List.mem_append.mp hp with hp | hp <;>
        rcases List.mem_append.mp hq with hq | hq
      · exact h.2 p hp q hq hpq
      · obtain ⟨k, hk, hv⟩ := h.1 p hp
        have he : q = (n, mkId s.uid) := by simpa using hq
        have : k = s.uid := mkId_injective (by rw [← hv, hpq, he])
        omega
      · obtain ⟨k, hk, hv⟩ := h.1 q hq
        have he : p = (n, mkId s.uid) := by simpa using hp
        have : s.uid = k := mkId_injective (by rw [← hv, ← hpq, he])
        omega
      · have hep : p = (n, mkId s.uid) := by simpa using hp
        have heq : q = (n, mkId s.uid) := by simpa using hq
        rw [hep, heq]

theorem processInput_wf {s : BuildState} (inp : String) (h : IdWF s) :
    IdWF (processInput s inp) := by
  unfold processInput
  by_cases hc : inp ∈ s.processedInputs
  · rwa [if_pos hc]
  · rw [if_neg hc]
    exact getId_wf inp h

theorem pass1Inputs_wf (l : List String) :
    ∀ {s : BuildState}, IdWF s → IdWF (pass1Inputs s l) := by
  induction l with
  | nil => intro s h; exact h
  | cons inp rest ih => intro s h; exact ih (processInput_wf inp h)

theorem pass1_wf (l : List RawNode) :
    ∀ {s : BuildState}, IdWF s → IdWF (pass1 s l) := by
  induction l with
  | nil => intro s h; exact h
  | cons nd rest ih => intro s h; exact ih (pass1Inputs_wf nd.input h)

theorem emitEdges_wf (l : List String) :
    ∀ {s : BuildState} (nodeId : String), IdWF s → IdWF (emitEdges s nodeId l) := by
  induction l with
  | nil => intro s _ h; exact h
  | cons inp rest ih =>
    intro s nodeId h
    rw [emitEdges]
    exact ih nodeId (getId_wf inp h)

theorem processNode_wf {s : BuildState} (i : Nat) (nd : RawNode) (h : IdWF s) :
    IdWF (processNode s i nd) := by
  unfold processNode
  exact emitEdges_wf nd.input _ (getId_wf _ h)

theorem pass2From_wf (l : List RawNode) :
    ∀ {s : BuildState} (i : Nat), IdWF s → IdWF (pass2From s i l) := by
  induction l with
  | nil => intro s _ h; exact h
  | cons nd rest ih =>
    intro s i h
    exact ih (i + 1) (processNode_wf i nd h)

theorem getId_idem (s : BuildState) (n : String) :
    getId ((getId s n).2) n = ((getId s n).1, (getId s n).2) :=
  getId_of_some (getId_sets s n)

theorem getId_distinct {s : BuildState} (h : IdWF s) {n1 n2 : String} (hne : n1 ≠ n2) :
    (getId ((getId s n1).2) n2).1 ≠ (getId s n1).1 := by
  have h1 : IdWF (getId s n1).2 := getId_wf n1 h
  have hs1 : alookup (getId s n1).2.nameToId n1 = some (getId s n1).1 := getId_sets s n1
  have hmem1 : (n1, (getId s n1).1) ∈ (getId s n1).2.nameToId := alookup_mem hs1
  cases h2 : alookup (getId s n1).2.nameToId n2 with
  | some v =>
    rw [getId_of_some h2]
    intro hv
    have hmem2 : (n2, v) ∈ (getId s n1).2.nameToId := alookup_mem h2
    exact hne (h1.2 _ hmem1 _ hmem2 hv.symm)
  | none =>
    rw [getId_val_of_none h2]
    intro hv
    obtain ⟨k, hk, hvk⟩ := h1.1 _ hmem1
    have : (getId s n1).2.uid = k := mkId_injective (hv.trans hvk)
    omega

/-! ### Closed form of the emitted edge list (order of emission) -/





theorem emitEdges_closed (l : List String) :
    ∀ (s : BuildState) (nodeId : String),
      (∀ inp ∈ l, (alookup s.nameToId inp).isSome) →
      emitEdges s nodeId l =
        { s with edges := s.edges ++ l.map (fun inp =>
            { id := "e-" ++ (alookup s.nameToId inp).getD "" ++ "-" ++ nodeId,
              source := (alookup s.nameToId inp).getD "", target := nodeId }) } := by
  induction l with
  | nil =>
    intro s nodeId _
    simp [emitEdges]
  | cons inp rest ih =>
    intro s nodeId hin
    obtain ⟨v, hv⟩ := Option.isSome_iff_exists.mp (hin inp (List.mem_cons_self _ _))
    rw [emitEdges, getId_of_some hv]
    show emitEdges { s with edges := s.edges ++
        [{ id := "e-" ++ v ++ "-" ++ nodeId, source := v, target := nodeId }] } nodeId rest = _
    rw [ih { s with edges := s.edges ++
          [{ id := "e-" ++ v ++ "-" ++ nodeId, source := v, target := nodeId }] } nodeId
        (fun inp2 h2 => hin inp2 (List.mem_cons_of_mem _ h2))]
    simp [hv, List.append_assoc]

theorem processNode_target (s : BuildState) (i : Nat) (nd : RawNode) :
    alookup (processNode s i nd).nameToId (canonicalName nd i) =
      some (getId s (canonicalName nd i)).1 := by
  unfold processNode
  exact (emitEdges_mono nd.input _ _).1 _ _ (getId_sets s (canonicalName nd i))

theorem processNode_edges (s : BuildState) (i : Nat) (nd : RawNode)
    (hin : ∀ inp ∈ nd.input, (alookup s.nameToId inp).isSome) :
    (processNode s i nd).edges =
      s.edges ++ nd.input.map (fun inp =>
        { id := "e-" ++ (alookup s.nameToId inp).getD "" ++ "-" ++
                (getId s (canonicalName nd i)).1,
          source := (alookup s.nameToId inp).getD "",
          target := (getId s (canonicalName nd i)).1 }) := by
  simp only [processNode]
  have hin2 : ∀ inp ∈ nd.input,
      (alookup (getId s (canonicalName nd i)).2.nameToId inp).isSome := by
    intro inp h2
    obtain ⟨v, hv⟩ := Option.isSome_iff_exists.mp (hin inp h2)
    simp [getId_preserves _ hv]
  rw [emitEdges_closed nd.input
      { (getId s (canonicalName nd i)).2 with
        nodes := (getId s (canonicalName nd i)).2.nodes ++
          [{ id := (getId s (canonicalName nd i)).1, type := "default",
             x := 300 + (i % 4) * 200, y := 100 + (i / 4) * 150,
             label := opLabel nd i }] }
      (getId s (canonicalName nd i)).1 hin2]
  simp only [getId_edges]
  congr 1
  apply List.map_congr_left
  intro inp h2
  obtain ⟨v, hv⟩ := Option.isSome_iff_exists.mp (hin inp h2)
  rw [hv, getId_preserves _ hv]

theorem pass2From_closed (l : List RawNode) :
    ∀ (s : BuildState) (i : Nat),
      (∀ nd ∈ l, ∀ inp ∈ nd.input, (alookup s.nameToId inp).isSome) →
      (pass2From s i l).edges =
        s.edges ++ (l.enumFrom i).flatMap (fun p =>
          p.2.input.map (fun inp =>
            { id := "e-" ++ (alookup (pass2From s i l).nameToId inp).getD "" ++ "-" ++
                    (alookup (pass2From s i l).nameToId (canonicalName p.2 p.1)).getD "",
              source := (alookup (pass2From s i l).nameToId inp).getD "",
              target := (alookup (pass2From s i l).nameToId (canonicalName p.2 p.1)).getD "" })) := by
  induction l with
  | nil =>
    intro s i _
    simp [pass2From]
  | cons nd rest ih =>
    intro s i hin
    have hmono : Mono (processNode s i nd) (pass2From (processNode s i nd) (i + 1) rest) :=
      pass2From_mono rest _ _
    have hin1 : ∀ inp ∈ nd.input, (alookup s.nameToId inp).isSome :=
      hin nd (List.mem_cons_self _ _)
    have hin2 : ∀ nd2 ∈ rest, ∀ inp ∈ nd2.input,
        (alookup (processNode s i nd).nameToId inp).isSome := by
      intro nd2 h2 inp h3
      obtain ⟨v, hv⟩ := Option.isSome_iff_exists.mp
        (hin nd2 (List.mem_cons_of_mem _ h2) inp h3)
      simp [(processNode_mono s i nd).1 _ _ hv]
    rw [pass2From, ih _ (i + 1) hin2, processNode_edges s i nd hin1, List.append_assoc]
    rw [List.enumFrom_cons, List.flatMap_cons]
    congr 2
    apply List.map_congr_left
    intro inp h2
    obtain ⟨v, hv⟩ := Option.isSome_iff_exists.mp (hin1 inp h2)
    have hv2 : alookup (pass2From (processNode s i nd) (i + 1) rest).nameToId inp = some v :=
      hmono.1 _ _ ((processNode_mono s i nd).1 _ _ hv)
    have hcn : alookup (pass2From (processNode s i nd) (i + 1) rest).nameToId
        (canonicalName nd i) = some (getId s (canonicalName nd i)).1 :=
      hmono.1 _ _ (processNode_target s i nd)
    simp [hv, hv2, hcn]

/-! ### Operator-frequency histogram lemmas -/









theorem bump_lookup_self (f : List (String × Nat)) (op : String) :
    alookup (bump f op) op = some ((alookup f op).getD 0 + 1) := by
  induction f with
  | nil => simp [bump, alookup]
  | cons p rest ih =>
    obtain ⟨k, v⟩ := p
    by_cases hk : k = op
    · subst hk
      simp [bump, alookup]
    · simp [bump, alookup, hk, ih]

theorem bump_lookup_other (f : List (String × Nat)) (op k : String) (h : k ≠ op) :
    alookup (bump f op) k = alookup f k := by
  induction f with
  | nil => simp [bump, alookup, Ne.symm h]
  | cons p rest ih =>
    obtain ⟨k2, v⟩ := p
    by_cases hk2 : k2 = op
    · subst hk2
      simp [bump, alookup, Ne.symm h]
    · by_cases hk3 : k2 = k
      · subst hk3
        simp [bump, alookup, hk2]
      · simp [bump, alookup, hk2, hk3, ih]

theorem bump_sum (f : List (String × Nat)) (op : String) :
    sumVals (bump f op) = sumVals f + 1 := by
  induction f with
  | nil => simp [bump, sumVals]
  | cons p rest ih =>
    obtain ⟨k, v⟩ := p
    by_cases hk : k = op
    · simp [bump, sumVals, hk]
      omega
    · simp [bump, sumVals, hk, ih]
      omega

theorem freqStep_lookup_other {f : List (String × Nat)} {nd : RawNode} {op : String}
    (hnd : nd.opType ≠ some op) :
    alookup (freqStep f nd) op = alookup f op := by
  unfold freqStep
  cases h3 : nd.opType with
  | none => rfl
  | some op2 =>
    change alookup (if op2 = "" then f else bump f op2) op = alookup f op
    by_cases h4 : op2 = ""
    · rw [if_pos h4]
    · rw [if_neg h4]
      exact bump_lookup_other f op2 op (fun he => hnd (h3 ▸ he ▸ rfl))

theorem foldl_freqStep_some (l : List RawNode) :
    ∀ (f : List (String × Nat)) (op : String) (v : Nat), op ≠ "" →
      alookup f op = some v →
      alookup (l.foldl freqStep f) op = some (v + countOp l op) := by
  induction l with
  | nil =>
    intro f op v _ h
    simpa [countOp] using h
  | cons nd rest ih =>
    intro f op v hop h
    rw [List.foldl_cons]
    by_cases hnd : nd.opType = some op
    · have hstep : freqStep f nd = bump f op := by
        simp [freqStep, hnd, hop]
      rw [hstep]
      have h2 : alookup (bump f op) op = some (v + 1) := by
        rw [bump_lookup_self, h]
        rfl
      rw [ih _ op (v + 1) hop h2]
      simp only [countOp, if_pos hnd]
      congr 1
      omega
    · have h2 : alookup (freqStep f nd) op = some v := by
        rw [freqStep_lookup_other hnd]
        exact h
      rw [ih (freqStep f nd) op v hop h2]
      simp only [countOp, if_neg hnd]
      congr 1
      omega

theorem foldl_freqStep_none (l : List RawNode) :
    ∀ (f : List (String × Nat)) (op : String), op ≠ "" →
      alookup f op = none →
      alookup (l.foldl freqStep f) op =
        if countOp l op = 0 then none else some (countOp l op) := by
  induction l with
  | nil =>
    intro f op _ h
    simpa [countOp] using h
  | cons nd rest ih =>
    intro f op hop h
    rw [List.foldl_cons]
    by_cases hnd : nd.opType = some op
    · have hstep : freqStep f nd = bump f op := by
        simp [freqStep, hnd, hop]
      rw [hstep]
      have h2 : alookup (bump f op) op = some 1 := by
        rw [bump_lookup_self, h]
        rfl
      rw [foldl_freqStep_some rest _ op 1 hop h2]
      simp only [countOp, if_pos hnd]
      rw [if_neg (by omega)]
    · have h2 : alookup (freqStep f nd) op = none := by
        rw [freqStep_lookup_other hnd]
        exact h
      rw [ih (freqStep f nd) op hop h2]
      simp only [countOp, if_neg hnd]
      simp

theorem freqStep_sum (f : List (String × Nat)) (nd : RawNode) :
    sumVals (freqStep f nd) = sumVals f + (if knownOp nd then 1 else 0) := by
  unfold freqStep knownOp
  cases nd.opType with
  | none => simp [sumVals]
  | some s =>
    by_cases hs : s = "" <;> simp [hs, bump_sum]

theorem foldl_freqStep_sum (l : List RawNode) :
    ∀ f : List (String × Nat), sumVals (l.foldl freqStep f) = sumVals f + countKnown l := by
  induction l with
  | nil => intro f; simp [countKnown]
  | cons nd rest ih =>
    intro f
    rw [List.foldl_cons, ih, freqStep_sum]
    simp only [countKnown]
    omega

theorem countKnown_eq_length (l : List RawNode) (h : ∀ nd ∈ l, knownOp nd) :
    countKnown l = l.length := by
  induction l with
  | nil => rfl
  | cons nd rest ih =>
    simp only [countKnown, if_pos (h nd (List.mem_cons_self _ _)), List.length_cons]
    rw [ih (fun nd2 h2 => h nd2 (List.mem_cons_of_mem _ h2))]
    omega

theorem operatorFrequency_lookup (nodes : List RawNode) (op : String) (hop : op ≠ "") :
    alookup (operatorFrequency nodes) op =
      if countOp nodes op = 0 then none else some (countOp nodes op) :=
  foldl_freqStep_none nodes [] op hop rfl

theorem operatorFrequency_sum (nodes : List RawNode) (h : ∀ nd ∈ nodes, knownOp nd) :
    sumVals (operatorFrequency nodes) = nodes.length := by
  unfold operatorFrequency
  rw [foldl_freqStep_sum, countKnown_eq_length nodes h]
  simp [sumVals]

/-! ### Claim theorems -/

/-- C6: modelComplexity is a pure threshold function of the operator-node
count: High exactly when the count exceeds 1000, Medium exactly when it
exceeds 100 and is at most 1000, Low otherwise; a decoded graph with 1500
nodes is classified High by the parse pipeline. -/
theorem C6_modelComplexity_threshold :
    (∀ n : Nat,
      (modelComplexity n = "High" ↔ 1000 < n) ∧
      (modelComplexity n = "Medium" ↔ 100 < n ∧ n ≤ 1000) ∧
      (modelComplexity n = "Low" ↔ n ≤ 100)) ∧
    (∀ (fn : String) (fs : Nat) (g : DecodedGraph), g.node.length = 1500 →
      (parseONNXModelComplete fn fs (Except.ok { graph := some g })).analysisResult.map
        Analysis.modelComplexity = some "High") := by
  constructor
  · intro n
    unfold modelComplexity
    split_ifs with h1 h2
    · exact ⟨⟨fun _ => h1, fun _ => rfl⟩,
             ⟨fun h => absurd h (by decide), fun h => absurd h1 (by omega)⟩,
             ⟨fun h => absurd h (by decide), fun h => absurd h1 (by omega)⟩⟩
    · exact ⟨⟨fun h => absurd h (by decide), fun h => absurd h h1⟩,
             ⟨fun _ => ⟨h2, by omega⟩, fun _ => rfl⟩,
             ⟨fun h => absurd h (by decide), fun h => absurd h2 (by omega)⟩⟩
    · exact ⟨⟨fun h => absurd h (by decide), fun h => absurd h h1⟩,
             ⟨fun h => absurd h (by decide), fun h => absurd h.1 h2⟩,
             ⟨fun _ => by omega, fun _ => rfl⟩⟩
  · intro fn fs g hg
    have hr : (parseONNXModelComplete fn fs (Except.ok { graph := some g })).analysisResult =
        some { totalInputs := g.input.length, totalOutputs := g.output.length,
               totalNodes := g.node.length, totalInitializers := g.initializer.length,
               modelComplexity := modelComplexity g.node.length,
               operatorFrequency := operatorFrequency g.node } := rfl
    rw [hr, hg]
    simp [modelComplexity]

theorem C6_witness :
    (parseONNXModelComplete "f" 0
      (Except.ok { graph := some { node := List.replicate 1500 {} } })).analysisResult.map
        Analysis.modelComplexity = some "High" :=
  C6_modelComplexity_threshold.2 "f" 0 { node := List.replicate 1500 {} }
    (List.length_replicate 1500 {})

/-- C1 as stated is refuted on two points: a decode throw whose message is
empty yields an empty error field (the code forwards err.message verbatim),
and a successfully decoded model whose graph field is absent yields the
fallback shape rather than runtime-load (building the success object
evaluates model.graph.input, which throws and is caught). -/
theorem C1_counterexample :
    (parseONNXModelComplete "f" 7 (Except.error "")).errorMsg = some "" ∧
    (parseONNXModelComplete "f" 7 (Except.ok { graph := none })).parsingMethod =
      "fallback" ∧
    ("fallback" : String) ≠ "runtime-load" := by
  refine ⟨rfl, rfl, by decide⟩

/-- C1 (amended): when decoding throws, parseONNXModelComplete returns
exactly the failure shape carrying the thrown message (so the error field
is non-empty whenever the thrown message is), with parsingMethod fallback
and no partial model/graph fields; when decoding succeeds and the decoded
model has a graph, the result carries parsingMethod runtime-load; when
decoding succeeds but the graph field is absent, the caught TypeError also
produces the failure shape; no exception escapes — every result is one of
the two shapes. -/
theorem C1_parse_result_discriminant (fn : String) (fs : Nat)
    (dec : Except String DecodedModel) :
    (∀ e, dec = Except.error e →
       parseONNXModelComplete fn fs dec = ParseResult.failure e ∧
       (parseONNXModelComplete fn fs dec).parsingMethod = "fallback" ∧
       (e ≠ "" → (parseONNXModelComplete fn fs dec).errorMsg ≠ some "")) ∧
    (∀ m g, dec = Except.ok m → m.graph = some g →
       (parseONNXModelComplete fn fs dec).parsingMethod = "runtime-load") ∧
    (∀ m, dec = Except.ok m → m.graph = none →
       parseONNXModelComplete fn fs dec = ParseResult.failure nullGraphError ∧
       (parseONNXModelComplete fn fs dec).parsingMethod = "fallback") ∧
    ((parseONNXModelComplete fn fs dec).parsingMethod = "fallback" ∨
     (parseONNXModelComplete fn fs dec).parsingMethod = "runtime-load") := by
  refine ⟨?_, ?_, ?_, ?_⟩
  · intro e he
    subst he
    refine ⟨rfl, rfl, fun hne => ?_⟩
    simpa [parseONNXModelComplete, ParseResult.errorMsg] using hne
  · intro m g he hg
    subst he
    simp [parseONNXModelComplete, hg, ParseResult.parsingMethod]
  · intro m he hg
    subst he
    constructor
    · simp [parseONNXModelComplete, hg]
    · simp [parseONNXModelComplete, hg, ParseResult.parsingMethod]
  · cases dec with
    | error e => exact Or.inl rfl
    | ok m =>
      cases hg : m.graph with
      | none => exact Or.inl (by simp [parseONNXModelComplete, hg, ParseResult.parsingMethod])
      | some g => exact Or.inr (by simp [parseONNXModelComplete, hg, ParseResult.parsingMethod])

theorem C1_witness :
    parseONNXModelComplete "f" 1 (Except.error "boom") = ParseResult.failure "boom" ∧
    (parseONNXModelComplete "f" 1 (Except.ok { graph := some {} })).parsingMethod =
      "runtime-load" :=
  ⟨((C1_parse_result_discriminant "f" 1 (Except.error "boom")).1 "boom" rfl).1,
   (C1_parse_result_discriminant "f" 1 (Except.ok { graph := some {} })).2.1
     { graph := some {} } {} rfl rfl⟩

/-- C2 as stated is refuted: in a chained model the tensor t receives an
InputNode in pass 1 even though t is produced by the first operator, so not
every InputNode corresponds to a never-produced tensor name. The full build
output of the chain is evaluated to exhibit this. -/
theorem C2_counterexample :
    (buildGraph chainNodes).1 =
      [{ id := "id-1", type := "input", x := 50, y := 50, label := "x" },
       { id := "id-2", type := "input", x := 50, y := 150, label := "t" },
       { id := "id-2", type := "default", x := 300, y := 100, label := "Conv" },
       { id := "id-3", type := "default", x := 500, y := 100, label := "ReLU" }] ∧
    (∃ n ∈ (buildGraph chainNodes).1, n.type = "input" ∧
       ∃ nd ∈ chainNodes, n.label ∈ nd.output) := by
  constructor
  · decide
  · decide

/-- C2 (amended): every node created as an InputNode corresponds to a
tensor name consumed by some operator — whether or not that name is also
produced; and the concrete scenario holds as stated: the one-Conv model
builds exactly 3 InputNodes (x, w, b), 1 OperatorNode, and the three edges
from x, w, b to the Conv node's id. -/
theorem C2_input_nodes :
    (∀ nodes : List RawNode, ∀ n ∈ (buildGraph nodes).1, n.type = "input" →
       ∃ x, consumed nodes x ∧ n.label = truncateLabel x) ∧
    buildGraph convNodes =
      ([{ id := "id-1", type := "input", x := 50, y := 50, label := "x" },
        { id := "id-2", type := "input", x := 50, y := 150, label := "w" },
        { id := "id-3", type := "input", x := 50, y := 250, label := "b" },
        { id := "id-4", type := "default", x := 300, y := 100, label := "Conv" }],
       [{ id := "e-id-1-id-4", source := "id-1", target := "id-4" },
        { id := "e-id-2-id-4", source := "id-2", target := "id-4" },
        { id := "e-id-3-id-4", source := "id-3", target := "id-4" }]) := by
  constructor
  · intro nodes n hn hty
    rcases pass2From_nodes_mem nodes hn with h2 | h2
    · rcases pass1_nodes_mem nodes h2 with h3 | ⟨nd, hnd, x, hx, _, hlab⟩
      · simp [initState] at h3
      · exact ⟨x, ⟨nd, hnd, hx⟩, hlab⟩
    · rw [hty] at h2
      exact absurd h2 (by decide)
  · decide

theorem C2_witness :
    ∃ x, consumed convNodes x ∧
      ({ id := "id-1", type := "input", x := 50, y := 50, label := "x" } : FlowNode).label =
        truncateLabel x :=
  C2_input_nodes.1 convNodes
    { id := "id-1", type := "input", x := 50, y := 50, label := "x" } (by decide) rfl

/-- C3: every edge emitted by the graph builder has both endpoint ids among
the emitted nodes' ids — pass 1 assigns an id and creates a node for every
consumed tensor name before pass 2 emits edges, and pass 2 pushes the
operator node before its edges. -/
theorem C3_no_dangling_edges (nodes : List RawNode) :
    ∀ e ∈ (buildGraph nodes).2,
      (∃ n ∈ (buildGraph nodes).1, n.id = e.source) ∧
      (∃ n ∈ (buildGraph nodes).1, n.id = e.target) := by
  intro e he
  have h1 : EdgeOK (pass1 initState nodes) := by
    intro e2 he2
    rw [pass1_edges] at he2
    simp [initState] at he2
  have hin : ∀ nd ∈ nodes, ∀ inp ∈ nd.input,
      ∃ n, n ∈ (pass1 initState nodes).nodes ∧
        alookup (pass1 initState nodes).nameToId inp = some n.id := by
    intro nd hnd inp hinp
    obtain ⟨n, hn, _, hl⟩ := pass1_complete nodes ⟨nd, hnd, hinp⟩
    exact ⟨n, hn, hl⟩
  exact pass2From_ok nodes (pass1 initState nodes) 0 h1 hin e he

theorem C3_witness :
    (∃ n ∈ (buildGraph convNodes).1,
       n.id = ({ id := "e-id-1-id-4", source := "id-1", target := "id-4" } : FlowEdge).source) ∧
    (∃ n ∈ (buildGraph convNodes).1,
       n.id = ({ id := "e-id-1-id-4", source := "id-1", target := "id-4" } : FlowEdge).target) :=
  C3_no_dangling_edges convNodes
    { id := "e-id-1-id-4", source := "id-1", target := "id-4" } (by decide)

/-- C4: id assignment is idempotent (a second request for the same name
returns the same id and leaves the state unchanged), the uid counter is
monotone (ids are never reused), on any well-formed state two distinct
names receive distinct ids, and every state reached by a full build run is
well-formed (so in actual runs the map never sends two names to one id). -/
theorem C4_getId_idempotent_injective :
    (∀ (s : BuildState) (name : String),
       getId ((getId s name).2) name = ((getId s name).1, (getId s name).2)) ∧
    (∀ (s : BuildState) (name : String), s.uid ≤ (getId s name).2.uid) ∧
    (∀ s : BuildState, IdWF s → ∀ name1 name2, name1 ≠ name2 →
       (getId ((getId s name1).2) name2).1 ≠ (getId s name1).1) ∧
    (∀ nodes : List RawNode, IdWF (buildState nodes)) := by
  refine ⟨getId_idem, getId_uid, ?_, ?_⟩
  · intro s hwf name1 name2 hne
    exact getId_distinct hwf hne
  · intro nodes
    exact pass2From_wf nodes 0 (pass1_wf nodes initState_wf)

theorem C4_witness :
    getId ((getId initState "x").2) "x" = ((getId initState "x").1, (getId initState "x").2) ∧
    (getId ((getId initState "x").2) "y").1 ≠ (getId initState "x").1 :=
  ⟨C4_getId_idempotent_injective.1 initState "x",
   C4_getId_idempotent_injective.2.2.1 initState initState_wf "x" "y" (by decide)⟩

/-- C5 as stated is refuted: a node whose output list is present but whose
first entry is the empty string does not get that entry as its canonical
name — the JS fallback a || b treats the empty string as absent, so the
name field wins. -/
theorem C5_counterexample :
    emptyFirstOutputNode.output.head? = some "" ∧
    canonicalName emptyFirstOutputNode 0 = "alt" ∧
    ("alt" : String) ≠ "" := by
  refine ⟨rfl, rfl, by decide⟩

/-- C5 (amended): the canonical name of the node at position i is output[0]
when present and non-empty, else the name field when present and non-empty,
else node-<i>; the displayed operator label falls back through opType,
op_type and type — each used when present and non-empty — and finally
Node <i>; both functions are total. -/
theorem C5_naming_fallbacks (nd : RawNode) (i : Nat) :
    (∀ s, nd.output.head? = some s → s ≠ "" → canonicalName nd i = s) ∧
    ((nd.output.head? = none ∨ nd.output.head? = some "") →
       ∀ s, nd.name = some s → s ≠ "" → canonicalName nd i = s) ∧
    ((nd.output.head? = none ∨ nd.output.head? = some "") →
       (nd.name = none ∨ nd.name = some "") →
       canonicalName nd i = "node-" ++ toString i) ∧
    (∀ s, nd.opType = some s → s ≠ "" → opLabel nd i = s) ∧
    ((nd.opType = none ∨ nd.opType = some "") →
       ∀ s, nd.op_type = some s → s ≠ "" → opLabel nd i = s) ∧
    ((nd.opType = none ∨ nd.opType = some "") →
       (nd.op_type = none ∨ nd.op_type = some "") →
       ∀ s, nd.type = some s → s ≠ "" → opLabel nd i = s) ∧
    ((nd.opType = none ∨ nd.opType = some "") →
       (nd.op_type = none ∨ nd.op_type = some "") →
       (nd.type = none ∨ nd.type = some "") →
       opLabel nd i = "Node " ++ toString i) := by
  refine ⟨?_, ?_, ?_, ?_, ?_, ?_, ?_⟩
  · intro s hs hne
    simp [canonicalName, jsStr, hs, hne]
  · rintro (h | h) s hs hne <;> simp [canonicalName, jsStr, h, hs, hne]
  · rintro (h | h) (h2 | h2) <;> simp [canonicalName, jsStr, h, h2]
  · intro s hs hne
    simp [opLabel, jsStr, hs, hne]
  · rintro (h | h) s hs hne <;> simp [opLabel, jsStr, h, hs, hne]
  · rintro (h | h) (h2 | h2) s hs hne <;> simp [opLabel, jsStr, h, h2, hs, hne]
  · rintro (h | h) (h2 | h2) (h3 | h3) <;> simp [opLabel, jsStr, h, h2, h3]

theorem C5_witness :
    canonicalName { output := ["y"], name := some "nm" } 3 = "y" ∧
    opLabel { op_type := some "Gemm" } 3 = "Gemm" ∧
    canonicalName ({} : RawNode) 3 = "node-3" ∧
    opLabel ({} : RawNode) 3 = "Node 3" :=
  ⟨(C5_naming_fallbacks { output := ["y"], name := some "nm" } 3).1 "y" rfl (by decide),
   (C5_naming_fallbacks { op_type := some "Gemm" } 3).2.2.2.2.1 (Or.inl rfl) "Gemm" rfl
     (by decide),
   (C5_naming_fallbacks ({} : RawNode) 3).2.2.1 (Or.inl rfl) (Or.inl rfl),
   (C5_naming_fallbacks ({} : RawNode) 3).2.2.2.2.2.2 (Or.inl rfl) (Or.inl rfl) (Or.inl rfl)⟩

/-- C7: operatorFrequency maps every non-empty opType string to its number
of occurrences and omits (rather than zero-fills) strings with no
occurrence; when every node has a known (present, non-empty) opType the
values sum to totalNodes; and the empty decoded graph parses to a success
payload with all counts zero, an empty histogram and complexity Low. -/
theorem C7_operator_frequency (nodes : List RawNode) :
    (∀ op : String, op ≠ "" →
       alookup (operatorFrequency nodes) op =
         if countOp nodes op = 0 then none else some (countOp nodes op)) ∧
    ((∀ nd ∈ nodes, knownOp nd) → sumVals (operatorFrequency nodes) = nodes.length) ∧
    parseONNXModelComplete "empty" 0 (Except.ok { graph := some {} }) =
      ParseResult.success
        { fileName := "empty", fileSize := 0, producerName := "Unknown",
          producerVersion := "Unknown", inputs := [], outputs := [], nodes := [],
          initializer := [],
          analysis := { totalInputs := 0, totalOutputs := 0, totalNodes := 0,
                        totalInitializers := 0, modelComplexity := "Low",
                        operatorFrequency := [] } } :=
  ⟨fun op hop => operatorFrequency_lookup nodes op hop,
   fun h => operatorFrequency_sum nodes h,
   by decide⟩

theorem C7_witness :
    alookup (operatorFrequency convNodes) "Conv" =
      (if countOp convNodes "Conv" = 0 then none else some (countOp convNodes "Conv")) ∧
    sumVals (operatorFrequency convNodes) = convNodes.length :=
  ⟨(C7_operator_frequency convNodes).1 "Conv" (by decide),
   (C7_operator_frequency convNodes).2.1 (by decide)⟩

/-- C8: the build step is deterministic — equal inputs give identical node
and edge lists (ids, coordinates, labels) — and the emitted edge list is
exactly one edge per (node, input) pair in node-iteration order then
input-list order, from the consumed tensor's assigned id to the node's
canonical-name id. -/
theorem C8_build_deterministic (nodes nodes2 : List RawNode) (h : nodes = nodes2) :
    buildGraph nodes = buildGraph nodes2 ∧
    (buildGraph nodes).2 = edgeOrderSpec nodes := by
  subst h
  refine ⟨rfl, ?_⟩
  have hin : ∀ nd ∈ nodes, ∀ inp ∈ nd.input,
      (alookup (pass1 initState nodes).nameToId inp).isSome := by
    intro nd hnd inp hinp
    obtain ⟨n, _, _, hl⟩ := pass1_complete nodes ⟨nd, hnd, hinp⟩
    simp [hl]
  have h2 := pass2From_closed nodes (pass1 initState nodes) 0 hin
  show (pass2From (pass1 initState nodes) 0 nodes).edges = edgeOrderSpec nodes
  rw [h2, pass1_edges]
  simp [edgeOrderSpec, finalId, buildState, initState, List.enum_eq_enumFrom]

theorem C8_witness :
    buildGraph convNodes = buildGraph convNodes ∧
    (buildGraph convNodes).2 = edgeOrderSpec convNodes :=
  C8_build_deterministic convNodes convNodes rfl

/-- C9 as stated is refuted on two points: the weight and bias lines of a
Conv node with no matching inputs use the single-letter fallbacks W and B,
not the en-dash placeholder (which is reserved for the four attribute
lines); and the layout engine's non-operator nodes carry the untruncated
tensor name — truncation at the 20-character budget happens only in the
flow-graph builder's input labels. -/
theorem C9_counterexample :
    getConvDetails bareConvNode =
      ["Weight: W", "Bias: B", "Dilations: –", "Kernel: –", "Padding: –", "Strides: –"] ∧
    ("Weight: W" : String) ≠ "Weight: –" ∧
    (layoutInputChild "a_tensor_name_longer_than_twenty").labels =
      [some "a_tensor_name_longer_than_twenty"] ∧
    ("a_tensor_name_longer_than_twenty" : String).length > 20 ∧
    truncateLabel "a_tensor_name_longer_than_twenty" ≠
      "a_tensor_name_longer_than_twenty" := by
  refine ⟨by decide, by decide, rfl, by decide, by decide⟩

/-- C9 (amended): every operator node's first label line is its opType;
non-Conv operators get that single line; Conv operators additionally get
six Key: value lines — weight and bias (with W and B fallbacks when no
input name contains weight resp. bias) and the four shape attributes
dilations, kernel, padding, strides, each showing the en-dash placeholder
when the attribute is absent or has no ints, and the times-sign join of its
ints otherwise; the layout engine's input/output nodes carry the single
untruncated tensor-name line, while the flow-graph builder truncates input
labels beyond 20 characters with a three-dot ellipsis and leaves shorter
ones unmodified. -/
theorem C9_node_labels :
    (∀ nd : RawNode, (layoutNodeLabels nd).head? = some nd.opType) ∧
    (∀ nd : RawNode, nd.opType ≠ some "Conv" → layoutNodeLabels nd = [nd.opType]) ∧
    (∀ nd : RawNode, nd.opType = some "Conv" →
       ∃ w b d k p st, getConvDetails nd =
           ["Weight: " ++ w, "Bias: " ++ b, "Dilations: " ++ d, "Kernel: " ++ k,
            "Padding: " ++ p, "Strides: " ++ st] ∧
         layoutNodeLabels nd = some "Conv" :: (getConvDetails nd).map some) ∧
    (∀ (attrs : List AttrProto) (nm : String),
       attrs.find? (fun a => a.name == nm) = none → getAttrValue attrs nm = "–") ∧
    (∀ (attrs : List AttrProto) (nm : String) (a : AttrProto),
       attrs.find? (fun a2 => a2.name == nm) = some a → a.ints = none →
       getAttrValue attrs nm = "–") ∧
    (∀ (attrs : List AttrProto) (nm : String) (a : AttrProto) (l : List String),
       attrs.find? (fun a2 => a2.name == nm) = some a → a.ints = some l →
       joinX l ≠ "" → getAttrValue attrs nm = joinX l) ∧
    (∀ nd : RawNode, nd.input.find? (fun i => strIncludes i "weight") = none →
       (getConvDetails nd).head? = some "Weight: W") ∧
    (∀ nd : RawNode, nd.input.find? (fun i => strIncludes i "bias") = none →
       (getConvDetails nd).get? 1 = some "Bias: B") ∧
    (∀ name : String, (layoutInputChild name).labels = [some name] ∧
       (layoutOutputChild name).labels = [some name]) ∧
    (∀ s : String, (s.length ≤ 20 → truncateLabel s = s) ∧
       (s.length > 20 → truncateLabel s = String.take s 20 ++ "...")) := by
  refine ⟨?_, ?_, ?_, ?_, ?_, ?_, ?_, ?_, ?_, ?_⟩
  · intro nd
    by_cases hc : nd.opType = some "Conv" <;> simp [layoutNodeLabels, hc]
  · intro nd hc
    simp [layoutNodeLabels, hc]
  · intro nd hc
    exact ⟨_, _, _, _, _, _, rfl, by simp [layoutNodeLabels, hc]⟩
  · intro attrs nm hf
    simp [getAttrValue, hf]
  · intro attrs nm a hf hi
    simp [getAttrValue, hf, hi]
  · intro attrs nm a l hf hi hj
    simp [getAttrValue, hf, hi, hj]
  · intro nd hw
    simp [getConvDetails, hw]
  · intro nd hb
    simp [getConvDetails, hb]
  · intro name
    exact ⟨rfl, rfl⟩
  · intro s
    constructor
    · intro h
      simp [truncateLabel, Nat.not_lt.mpr h]
    · intro h
      simp [truncateLabel, h]

theorem C9_witness :
    (layoutNodeLabels bareConvNode).head? = some bareConvNode.opType ∧
    getAttrValue bareConvNode.«attribute» "dilations" = "–" ∧
    truncateLabel "short" = "short" :=
  ⟨C9_node_labels.1 bareConvNode,
   C9_node_labels.2.2.2.1 bareConvNode.«attribute» "dilations" (by decide),
   (C9_node_labels.2.2.2.2.2.2.2.2.2 "short").1 (by decide)⟩

/-- C10 as stated is refuted: when the shared tensor t is produced only as
a non-primary (second) output of an operator, pass 2 keys that operator by
its first output, so no node reuses t's id and the built node list has
pairwise-distinct ids. -/
theorem C10_counterexample :
    (∃ nd1 ∈ secondOutputNodes, ∃ nd2 ∈ secondOutputNodes, nd1 ≠ nd2 ∧
       "t" ∈ nd1.input ∧ "t" ∈ nd2.output) ∧
    ((buildGraph secondOutputNodes).1.map FlowNode.id).Nodup := by
  refine ⟨by decide, by decide⟩

/-- C10 (amended): whenever a tensor name is consumed by some operator and
is the canonical name (primary output, or name fallback) of the operator at
some position, the built node list contains two distinct entries sharing
one id — the pass-1 input-kind node and the pass-2 operator-kind node — so
node ids are not pairwise distinct in general. -/
theorem C10_duplicate_ids (nodes : List RawNode) (t : String) (k : Nat)
    (hk : k < nodes.length) (hcons : consumed nodes t)
    (hcn : canonicalName (nodes.get ⟨k, hk⟩) k = t) :
    ∃ n1 n2 : FlowNode, n1 ∈ (buildGraph nodes).1 ∧ n2 ∈ (buildGraph nodes).1 ∧
      n1 ≠ n2 ∧ n1.id = n2.id ∧ n1.type = "input" ∧ n2.type = "default" := by
  obtain ⟨n1, hn1, hty1, hl1⟩ := pass1_complete nodes hcons
  have hmono := pass2From_mono nodes (pass1 initState nodes) 0
  have hn1f : n1 ∈ (buildState nodes).nodes := hmono.2.1 n1 hn1
  have hl1f : alookup (buildState nodes).nameToId t = some n1.id := hmono.1 _ _ hl1
  obtain ⟨n2, hn2, hty2, hl2⟩ := pass2From_opnode nodes (pass1 initState nodes) 0 k hk
  rw [Nat.zero_add, hcn] at hl2
  have hid : n1.id = n2.id := Option.some.inj (hl1f.symm.trans hl2)
  refine ⟨n1, n2, hn1f, hn2, ?_, hid, hty1, hty2⟩
  intro he
  rw [he, hty2] at hty1
  exact absurd hty1 (by decide)

theorem C10_witness :
    ∃ n1 n2 : FlowNode, n1 ∈ (buildGraph chainNodes).1 ∧ n2 ∈ (buildGraph chainNodes).1 ∧
      n1 ≠ n2 ∧ n1.id = n2.id ∧ n1.type = "input" ∧ n2.type = "default" :=
  C10_duplicate_ids chainNodes "t" 0 (by decide)
    ⟨{ opType := some "ReLU", input := ["t"], output := ["y"] }, by decide, by decide⟩
    (by decide)
